import Mathlib

/-!
# Verification of the telegram-uploader bot core (`internal/bot/bot.go`)

Shallow embedding of the event dispatcher, admin-session store, configuration
store, membership gate, caption normalization, content intake and the
ephemeral-deletion scheduler of the repository, together with theorems
settling the specification claims.

External collaborators (the transport client, the SQL repositories, the file
system) are modelled as explicit oracle parameters: each handler receives the
results that the external calls would return, and produces the state mutation
and the list of outbound messages the Go code would perform.
-/

namespace Uploader

abbrev UserId := Int
abbrev ChatId := Int

/-! ## Caption normalization (`processCaption`, `mentionRe = @\w+`)

Go's `regexp.MustCompile(`@\w+`).ReplaceAllString(caption, tag)` scans left to
right and replaces every occurrence of `'@'` followed by a maximal nonempty run
of word characters (`[0-9A-Za-z_]`, which is what RE2's `\w` matches).  The
replacement string is *not* inserted verbatim: `ReplaceAllString` interprets
`$` signs in it as in `Regexp.Expand`, so the text inserted for a match is the
tag with its `$`-references expanded against that match.  We embed both
layers: `expandAux` is the template scanner of `Expand`, `rmAux` the
match-and-replace scan, which accumulates the matched run so the finished
match can be fed to the template expansion. -/

def wordChar (c : Char) : Bool := c.isAlphanum || c = '_'

/-- States of the `Expand` template scanner: `normal` copies text, `dollar`
has just read a `'$'`, `nameAcc acc` is inside an unbraced `$name` reference,
`braceName acc` is inside a braced `${name}` reference (`acc` holds the name
read so far, reversed). -/
inductive TState where
  | normal
  | dollar
  | nameAcc (acc : List Char)
  | braceName (acc : List Char)

/-- What a `$name` reference expands to for `mentionRe = @\w+`: the pattern
has one match slot (index 0, the whole match) and no capture groups, so
`$0`/`${0}` yields the matched text and every other reference — higher
indices (out of range), numerals with leading zeros, and non-numeric names
(no named group matches) — expands to the empty string, exactly as
`Regexp.expand` does. -/
def refValue (name matched : List Char) : List Char :=
  if name = ['0'] then matched else []

/-- `Regexp.expand` of one template over one match: `$$` is a literal `$`;
`$name` / `${name}` (name: a nonempty run of word characters) expands via
`refValue`; a malformed `$` (no name, missing `}`, trailing `$`) is emitted
literally and scanning resumes after it.  (Go accepts any Unicode letter or
digit in a name; the ASCII classes of `wordChar` are modelled, which only
matters for `$` followed by a non-ASCII letter.) -/
def expandAux (matched : List Char) : TState → List Char → List Char
  | .normal, [] => []
  | .dollar, [] => ['$']
  | .nameAcc acc, [] => refValue acc.reverse matched
  | .braceName acc, [] => '$' :: '{' :: acc.reverse
  | .normal, c :: rest =>
    if c = '$' then expandAux matched .dollar rest
    else c :: expandAux matched .normal rest
  | .dollar, c :: rest =>
    if c = '$' then '$' :: expandAux matched .normal rest
    else if c = '{' then expandAux matched (.braceName []) rest
    else if wordChar c then expandAux matched (.nameAcc [c]) rest
    else '$' :: c :: expandAux matched .normal rest
  | .nameAcc acc, c :: rest =>
    if wordChar c then expandAux matched (.nameAcc (c :: acc)) rest
    else if c = '$' then refValue acc.reverse matched ++ expandAux matched .dollar rest
    else refValue acc.reverse matched ++ c :: expandAux matched .normal rest
  | .braceName acc, c :: rest =>
    if wordChar c then expandAux matched (.braceName (c :: acc)) rest
    else if c = '}' then
      if acc = [] then '$' :: '{' :: '}' :: expandAux matched .normal rest
      else refValue acc.reverse matched ++ expandAux matched .normal rest
    else if c = '$' then '$' :: '{' :: acc.reverse ++ expandAux matched .dollar rest
    else '$' :: '{' :: acc.reverse ++ c :: expandAux matched .normal rest

/-- The text inserted for one match: the tag template expanded against the
matched text. -/
def expandRepl (tag matched : List Char) : List Char :=
  expandAux matched TState.normal tag

/-- States of the match-and-replace scan: `normal` (no pending marker),
`afterAt` (an `'@'` was read and not yet resolved), `inRun acc` (inside a
matched run; `acc` holds the word characters read so far, reversed). -/
inductive MState where
  | normal
  | afterAt
  | inRun (acc : List Char)

def rmAux (tag : List Char) : MState → List Char → List Char
  | .normal, [] => []
  | .afterAt, [] => ['@']
  | .inRun acc, [] => expandRepl tag ('@' :: acc.reverse)
  | .normal, c :: rest =>
    if c = '@' then rmAux tag .afterAt rest
    else c :: rmAux tag .normal rest
  | .afterAt, c :: rest =>
    if wordChar c then rmAux tag (.inRun [c]) rest
    else if c = '@' then '@' :: rmAux tag .afterAt rest
    else '@' :: c :: rmAux tag .normal rest
  | .inRun acc, c :: rest =>
    if wordChar c then rmAux tag (.inRun (c :: acc)) rest
    else if c = '@' then
      expandRepl tag ('@' :: acc.reverse) ++ rmAux tag .afterAt rest
    else expandRepl tag ('@' :: acc.reverse) ++ c :: rmAux tag .normal rest

/-- `mentionRe.ReplaceAllString(s, tag)` on character lists. -/
def rmList (tag : String) (l : List Char) : List Char :=
  rmAux tag.data MState.normal l

/-- `strings.Contains` needs a substring check; `isPrefixOfL needle hay`
is the prefix test it is built from. -/
def isPrefixOfL : List Char → List Char → Bool
  | [], _ => true
  | _ :: _, [] => false
  | a :: t, b :: u => if a = b then isPrefixOfL t u else false

/-- `strings.Contains(hay, needle)`: some suffix of `hay` starts with `needle`. -/
def listContains : List Char → List Char → Bool
  | [], needle => isPrefixOfL needle []
  | c :: t, needle => isPrefixOfL needle (c :: t) || listContains t needle

def containsSub (s sub : String) : Bool := listContains s.data sub.data

/-- `(b *Bot) processCaption(caption string) string`, with the configured
default tag passed explicitly (the Go method reads it from the config). -/
def processCaption (tag caption : String) : String :=
  if caption = "" then tag
  else
    let cleaned := String.mk (rmList tag caption.data)
    if !containsSub cleaned tag then tag
    else cleaned

/-! ## Go `strings` helpers, embedded as structural char-list functions -/

/-- `unicode.IsSpace` on the characters Go treats as white space (the Latin-1
range): space, tab, newline, vertical tab, form feed, carriage return,
next line, no-break space. -/
def isSpaceGo (c : Char) : Bool :=
  c = ' ' || c = '\t' || c = '\n' || c = '\x0B' || c = '\x0C' || c = '\r' ||
  c = '\u0085' || c = '\u00A0'

/-- `strings.TrimSpace`. -/
def trimSpace (s : String) : String :=
  String.mk (((s.data.dropWhile isSpaceGo).reverse.dropWhile isSpaceGo).reverse)

/-- `strings.HasPrefix(s, pre)`. -/
def hasPrefixStr (s pre : String) : Bool := isPrefixOfL pre.data s.data

/-- `strings.TrimPrefix(s, pre)`. -/
def trimPrefixStr (s pre : String) : String :=
  if hasPrefixStr s pre then String.mk (s.data.drop pre.data.length) else s

/-- `strings.HasSuffix(s, suf)`. -/
def hasSuffixStr (s suf : String) : Bool :=
  isPrefixOfL suf.data.reverse s.data.reverse

/-- `strings.TrimSuffix(s, suf)`. -/
def trimSuffixStr (s suf : String) : String :=
  if hasSuffixStr s suf then
    String.mk (s.data.take (s.data.length - suf.data.length))
  else s

/-- The word accumulator behind `strings.Fields`: `acc` holds the reversed
characters of the word currently being read. -/
def fieldsAux (acc : List Char) : List Char → List String
  | [] => if acc = [] then [] else [String.mk acc.reverse]
  | c :: rest =>
    if isSpaceGo c then
      if acc = [] then fieldsAux [] rest
      else String.mk acc.reverse :: fieldsAux [] rest
    else fieldsAux (c :: acc) rest

/-! ## Channel normalization and the membership gate -/

/-- `normalizeChannel` from the source: trim, strip one leading `@`, strip a
`t.me` URL scheme, strip one trailing slash, trim again. -/
def normalizeChannel (channel : String) : String :=
  let c := trimSpace channel
  let c := trimPrefixStr c "@"
  let c := trimPrefixStr c "https://t.me/"
  let c := trimPrefixStr c "http://t.me/"
  let c := trimSuffixStr c "/"
  trimSpace c

/-- The external roster oracle (`api.GetChatMember`): given the normalized
group name and the user, `none` is a query error, `some st` the status string. -/
abbrev StatusOracle := String → UserId → Option String

def passingStatus (st : String) : Bool :=
  st = "member" || st = "administrator" || st = "creator"

/-- `(b *Bot) userHasStatus(channel string, userID int64) bool`. -/
def userHasStatus (oracle : StatusOracle) (channel : String) (userID : UserId) : Bool :=
  let normalized := normalizeChannel channel
  if normalized = "" then false
  else
    match oracle normalized userID with
    | none => false
    | some st => passingStatus st

/-- `(b *Bot) isMember(userID int64) bool` over an explicit channel list:
the Go loop returns `false` at the first non-passing channel. -/
def isMember (oracle : StatusOracle) (channels : List String) (userID : UserId) : Bool :=
  match channels with
  | [] => true
  | c :: rest => userHasStatus oracle c userID && isMember oracle rest userID

/-- The roster queries `isMember` actually issues, in order: `userHasStatus`
queries the normalized channel unless normalization yields the empty string,
and the loop stops at the first failing channel. -/
def isMemberQueries (oracle : StatusOracle) (channels : List String) (userID : UserId) :
    List String :=
  match channels with
  | [] => []
  | c :: rest =>
    let qs := if normalizeChannel c = "" then [] else [normalizeChannel c]
    if userHasStatus oracle c userID then qs ++ isMemberQueries oracle rest userID
    else qs

/-! ## Configuration -/

structure Config where
  apiToken : String
  botUsername : String
  defaultTag : String
  adminPassword : String
  deleteDelay : Int
  dbHost : String
  dbPort : Int
  dbUser : String
  dbPassword : String
  dbName : String
  dbSSLMode : String
  sponsoredChannels : List String
deriving DecidableEq

/-- `strings.Fields`: the maximal runs of non-space characters, in order. -/
def stringFields (s : String) : List String :=
  fieldsAux [] s.data

/-- The defaulting block of `LoadConfig` (runs after YAML unmarshalling). -/
def applyDefaults (cfg : Config) : Config :=
  { cfg with
    deleteDelay := if cfg.deleteDelay = 0 then 30 else cfg.deleteDelay
    dbHost := if cfg.dbHost = "" then "postgres" else cfg.dbHost
    dbPort := if cfg.dbPort = 0 then 5432 else cfg.dbPort
    dbUser := if cfg.dbUser = "" then "postgres" else cfg.dbUser
    dbPassword := if cfg.dbPassword = "" then "postgres" else cfg.dbPassword
    dbName := if cfg.dbName = "" then "uploader" else cfg.dbName
    dbSSLMode := if cfg.dbSSLMode = "" then "disable" else cfg.dbSSLMode }

/-- The sponsored-channel cleaning loop of `LoadConfig`: trim each entry and
drop the ones that trim to empty. -/
def cleanSponsors (l : List String) : List String :=
  (l.map trimSpace).filter (fun s => s ≠ "")

/-- `LoadConfig` after the file read and YAML unmarshal succeeded (those are
external): defaulting, channel cleaning, and the required-field validation.
`none` models the `errors.New("config missing required fields ...")` return. -/
def loadConfig (cfg : Config) : Option Config :=
  let cfg := applyDefaults cfg
  let cfg := { cfg with sponsoredChannels := cleanSponsors cfg.sponsoredChannels }
  if cfg.sponsoredChannels = [] ∨ cfg.botUsername = "" ∨
      cfg.apiToken = "" ∨ cfg.adminPassword = "" then none
  else some cfg

/-! ## Bot state, oracles, outbound effects -/

/-- A stored content record (`repository.FileRecord` without the redundant
key field; records are keyed by `fileKey` in the store below). -/
structure FileRecord where
  fileID : String
  caption : String
  fileType : String
deriving DecidableEq

/-- The in-memory and external-store state the handlers touch: the live
configuration, the admin session set (`b.admins`), and the rows of the
`files` and `links` tables (the parts of the database the core mutates). -/
structure BotState where
  config : Config
  admins : List UserId
  files : List (String × FileRecord)
  links : List (String × String)
deriving DecidableEq

/-- `b.isAdmin(userID)`: membership in the session set. -/
def isAdmin (admins : List UserId) (userID : UserId) : Bool :=
  admins.contains userID

/-- `b.setAdmin(userID, active)`: insert on `true`, delete on `false`. -/
def setAdmin (admins : List UserId) (userID : UserId) (active : Bool) : List UserId :=
  if active then (if admins.contains userID then admins else userID :: admins)
  else admins.filter (fun u => u ≠ userID)

/-- Results of the external calls a single event's handler may make.  Each
field is what the corresponding Go call would return (`none`/`some err` for
error injections, message identifiers for successful sends). -/
structure ExtOracle where
  memberStatus : StatusOracle
  genKey : String
  saveFileErr : Option String
  saveLinkErr : Option String
  updateCaptionErr : Option String
  getFileErr : Option String
  sendDocResult : Option Nat
  sendPhotoResult : Option Nat
  sendVideoResult : Option Nat
  sendWarnResult : Option Nat
  persistErr : Option String

/-- Outbound traffic to the transport, in the order the handler issues it. -/
inductive OutMsg where
  | text (chat : ChatId) (body : String)
  | document (chat : ChatId) (fileID caption : String)
  | photo (chat : ChatId) (fileID caption : String)
  | video (chat : ChatId) (fileID caption : String)
  | callbackAck (id : String)
deriving DecidableEq

/-- One armed deferred-deletion timer (`deleteMessagesLater` call). -/
structure Sched where
  chatId : ChatId
  messageIds : List Nat
  delaySeconds : Int
deriving DecidableEq

/-- What a `Sched` timer does when it fires: one delete request per stored
message identifier, in order. -/
def fireSched (s : Sched) : List (ChatId × Nat) :=
  s.messageIds.map (fun id => (s.chatId, id))

/-! ## Messages and text constants -/

/-- The fields of `tgbotapi.Message` the handlers read.  `command = some tok`
models `IsCommand() == true` with `Command() == tok`; `commandArgs` is
`CommandArguments()`. -/
structure Message where
  fromId : Option UserId
  chatId : ChatId
  command : Option String
  commandArgs : String
  document : Option String
  video : Option String
  photos : List String
  caption : String
deriving DecidableEq

/-- The fields of `tgbotapi.CallbackQuery` the handler reads. -/
structure CallbackQ where
  id : String
  hasMessage : Bool
  chatId : ChatId
  data : String
deriving DecidableEq

def guideShort : String :=
  "Use the buttons below to see how to upload files or how to get the download link."

def guideUpload : String :=
  "📤 *How to upload & get link*\n\n1. Send me a *video*, *document*, or *photo* (as a file).\n2. Optionally add a caption (e.g. @username).\n3. I will reply with a *link* (e.g. https://t.me/YourBot?start=xxx).\n4. Share that link with anyone; when they open it, they get the file (after joining your channels if required).\n\nAuthenticate first with `/login <password>` (the password is stored in the bot config)."

def guideGetLink : String :=
  "🔗 *How to get the file from a link*\n\n1. Open the link you received (e.g. https://t.me/YourBot?start=xxx).\n2. If asked, join the required channels using the buttons, then press Start again or open the link again.\n3. The bot will send you the file. Videos are deleted after a short time; save them if needed."

def warningText : String := "⚠️ فایل‌ها بعد از ۳۰ ثانیه حذف خواهند شد"
def welcomeText : String := "سلام! برای دانلود روی لینک فایل کلیک کنید."
def joinText : String := "لطفاً ابتدا در کانال‌های زیر عضو شوید:"
def notFoundText : String := "فایل پیدا نشد یا لینک منقضی شده است."
def fetchErrorText : String := "مشکلی پیش آمد، لطفاً دوباره تلاش کنید."

def loginUsageText : String := "Usage: /login <password>"
def loginInvalidText : String := "Invalid password."
def loginSuccessText : String :=
  "You are now authenticated as admin. You can upload videos and run admin commands."

/-! ## Repository operations (over the modelled stores) -/

/-- `fileRepo.Get`, with an injectable query error. -/
def getFile (st : BotState) (o : ExtOracle) (fileKey : String) :
    Except String (Option FileRecord) :=
  match o.getFileErr with
  | some e => Except.error e
  | none => Except.ok ((st.files.find? (fun p => p.1 = fileKey)).map (fun p => p.2))

/-- `(b *Bot) addFile`: substitute the default tag for an empty caption,
default the kind to `"document"`, then `fileRepo.Save` with a fresh key. -/
def addFile (st : BotState) (o : ExtOracle) (fileID fileType caption : String) :
    BotState × Except String String :=
  let caption := if caption = "" then st.config.defaultTag else caption
  let fileType := if fileType = "" then "document" else fileType
  match o.saveFileErr with
  | some e => (st, Except.error e)
  | none =>
    ({ st with files := st.files ++ [(o.genKey, ⟨fileID, caption, fileType⟩)] },
     Except.ok o.genKey)

/-- `fileRepo.UpdateCaption`: rewrite the caption of every row with the key
(a SQL `UPDATE ... WHERE file_key = $2`; zero matched rows is not an error). -/
def updateCaptionRows (files : List (String × FileRecord)) (fileKey caption : String) :
    List (String × FileRecord) :=
  files.map (fun p => if p.1 = fileKey then (p.1, { p.2 with caption := caption }) else p)

/-! ## Configuration store -/

/-- `(b *Bot) updateConfig`: run the updater on the live config; on updater
error return it; if the updater signalled a change, persist — a persistence
failure is returned but the mutated config stays in place. -/
def updateConfig (cfg : Config) (persist : Config → Option String)
    (updater : Config → Config × String × Bool × Option String) :
    Config × String × Option String :=
  match updater cfg with
  | (cfg', response, dirty, uerr) =>
    match uerr with
    | some e => (cfg', response, some e)
    | none =>
      if dirty then
        match persist cfg' with
        | some e => (cfg', response, some e)
        | none => (cfg', response, none)
      else (cfg', response, none)

/-- `persistConfig` as seen through the oracle: YAML marshal + file write,
failing exactly when the oracle injects a persistence error. -/
def persistOf (o : ExtOracle) : Config → Option String := fun _ => o.persistErr

/-- The inline `settag` updater passed to `handleConfigUpdate` in
`handleCommand`. -/
def settagUpdater (cfg : Config) (args : List String) :
    Config × String × Bool × Option String :=
  match args with
  | [a] =>
    if hasPrefixStr a "@" then
      ({ cfg with defaultTag := a }, "Default tag updated to " ++ a, true, none)
    else (cfg, "Usage: /settag @new_tag", false, none)
  | _ => (cfg, "Usage: /settag @new_tag", false, none)

/-! ## Handlers -/

/-- `(b *Bot) parseArgs`: `strings.Fields`. -/
def parseArgs (text : String) : List String := stringFields text

/-- `(b *Bot) handleConfigUpdate`: silent return on absent sender or
non-admin; otherwise run the locked update, reply with the non-empty
response, and add a failure notice if persistence (or the updater) errored. -/
def handleConfigUpdate (st : BotState) (o : ExtOracle) (m : Message)
    (updater : Config → List String → Config × String × Bool × Option String) :
    BotState × List OutMsg :=
  match m.fromId with
  | none => (st, [])
  | some uid =>
    if !isAdmin st.admins uid then (st, [])
    else
      let args := parseArgs m.commandArgs
      match updateConfig st.config (persistOf o) (fun cfg => updater cfg args) with
      | (cfg', response, err) =>
        ({ st with config := cfg' },
         (if response ≠ "" then [OutMsg.text m.chatId response] else []) ++
         (match err with
          | some _ => [OutMsg.text m.chatId "Failed to persist config"]
          | none => []))

/-- `sendFileByType`: document and photo are one send; video is the send,
then an unconditional warning message, then one armed deletion timer holding
both message identifiers and the configured delay.  The `Option String` is
the function's error return. -/
def sendFileByType (cfg : Config) (o : ExtOracle) (chatId : ChatId)
    (record : FileRecord) : List OutMsg × List Sched × Option String :=
  if record.fileType = "document" then
    ([OutMsg.document chatId record.fileID record.caption], [],
     match o.sendDocResult with | some _ => none | none => some "send failed")
  else if record.fileType = "photo" then
    ([OutMsg.photo chatId record.fileID record.caption], [],
     match o.sendPhotoResult with | some _ => none | none => some "send failed")
  else if record.fileType = "video" then
    match o.sendVideoResult with
    | none => ([OutMsg.video chatId record.fileID record.caption], [], some "send failed")
    | some vidId =>
      match o.sendWarnResult with
      | none =>
        ([OutMsg.video chatId record.fileID record.caption,
          OutMsg.text chatId warningText], [], some "send failed")
      | some warnId =>
        ([OutMsg.video chatId record.fileID record.caption,
          OutMsg.text chatId warningText],
         [⟨chatId, [vidId, warnId], cfg.deleteDelay⟩], none)
  else ([], [], some ("unknown file type " ++ record.fileType))

/-- `(b *Bot) handleStart`: returns outbound messages and any armed deletion
timers.  State is never mutated by `start`. -/
def handleStart (st : BotState) (o : ExtOracle) (m : Message) :
    BotState × List OutMsg × List Sched :=
  match m.fromId with
  | none => (st, [], [])
  | some uid =>
    let args := parseArgs m.commandArgs
    match args with
    | [] => (st, [OutMsg.text m.chatId (welcomeText ++ "\n\n" ++ guideShort)], [])
    | fileKey :: _ =>
      if !isMember o.memberStatus st.config.sponsoredChannels uid then
        (st, [OutMsg.text m.chatId joinText], [])
      else
        match getFile st o fileKey with
        | Except.error _ => (st, [OutMsg.text m.chatId fetchErrorText], [])
        | Except.ok none => (st, [OutMsg.text m.chatId notFoundText], [])
        | Except.ok (some record) =>
          match sendFileByType st.config o m.chatId record with
          | (outs, scheds, _) => (st, outs, scheds)

/-- `(b *Bot) handleHelp`. -/
def handleHelp (st : BotState) (m : Message) : BotState × List OutMsg :=
  match m.fromId with
  | none => (st, [])
  | some _ =>
    (st, [OutMsg.text m.chatId
      (guideShort ++ "\n\n---\n\n" ++ guideUpload ++ "\n\n---\n\n" ++ guideGetLink)])

/-- `(b *Bot) handleLogin`: exactly one argument, compared byte-for-byte to
the configured admin secret. -/
def handleLogin (st : BotState) (m : Message) : BotState × List OutMsg :=
  match m.fromId with
  | none => (st, [])
  | some uid =>
    match parseArgs m.commandArgs with
    | [pw] =>
      if pw ≠ st.config.adminPassword then (st, [OutMsg.text m.chatId loginInvalidText])
      else ({ st with admins := setAdmin st.admins uid true },
            [OutMsg.text m.chatId loginSuccessText])
    | _ => (st, [OutMsg.text m.chatId loginUsageText])

/-- `(b *Bot) handleLogout`. -/
def handleLogout (st : BotState) (m : Message) : BotState × List OutMsg :=
  match m.fromId with
  | none => (st, [])
  | some uid =>
    if !isAdmin st.admins uid then (st, [OutMsg.text m.chatId "You are not logged in."])
    else ({ st with admins := setAdmin st.admins uid false },
          [OutMsg.text m.chatId "Logged out from admin mode."])

/-- `strings.TrimLeft(s, " \t")`. -/
def trimLeftSpaceTab (s : String) : String :=
  String.mk (s.data.dropWhile (fun c => c = ' ' || c = '\t'))

/-- `(b *Bot) handleSetCaption`: silent for absent sender / non-admin;
otherwise parse `<file_key> <caption>`, normalize the caption through
`processCaption` (inside `updateCaption`) and update the stored row. -/
def handleSetCaption (st : BotState) (o : ExtOracle) (m : Message) :
    BotState × List OutMsg :=
  match m.fromId with
  | none => (st, [])
  | some uid =>
    if !isAdmin st.admins uid then (st, [])
    else
      let raw := trimLeftSpaceTab m.commandArgs
      if raw = "" then
        (st, [OutMsg.text m.chatId "Usage: /setcaption <file_key> <new caption>"])
      else
        match stringFields raw with
        | [] => (st, [OutMsg.text m.chatId "Usage: /setcaption <file_key> <new caption>"])
        | fileKey :: _ =>
          let caption := trimLeftSpaceTab (String.mk (raw.data.drop fileKey.data.length))
          if trimSpace caption = "" then
            (st, [OutMsg.text m.chatId "Caption cannot be empty."])
          else
            let cleaned := processCaption st.config.defaultTag caption
            match o.updateCaptionErr with
            | some _ => (st, [OutMsg.text m.chatId "Failed to update caption."])
            | none =>
              ({ st with files := updateCaptionRows st.files fileKey cleaned },
               [OutMsg.text m.chatId ("Caption for " ++ fileKey ++ " updated.")])

/-- `strings.TrimPrefix(u, "@")`. -/
def stripAt (u : String) : String := trimPrefixStr u "@"

/-- `(b *Bot) handleMedia`: admin-only intake of document/video/photo (first
matching kind wins in that order; for photos Telegram lists sizes ascending
and the last is taken), caption normalization, content-record creation, link
record creation (failure logged only), reply with the locator, and the
caption-revision prompt. -/
def handleMedia (st : BotState) (o : ExtOracle) (m : Message) :
    BotState × List OutMsg :=
  match m.fromId with
  | none => (st, [])
  | some uid =>
    if !isAdmin st.admins uid then (st, [])
    else
      let sel : Option (String × String) :=
        match m.document with
        | some d => some (d, "document")
        | none =>
          match m.video with
          | some v => some (v, "video")
          | none =>
            match m.photos.getLast? with
            | some p => some (p, "photo")
            | none => none
      match sel with
      | none => (st, [])
      | some (fileID, fileType) =>
        let caption := processCaption st.config.defaultTag m.caption
        match addFile st o fileID fileType caption with
        | (st', Except.error _) => (st', [])
        | (st', Except.ok fileKey) =>
          let linkURL := "https://t.me/" ++ stripAt st'.config.botUsername
            ++ "?start=" ++ fileKey
          let st'' :=
            match o.saveLinkErr with
            | some _ => st'
            | none => { st' with links := st'.links ++ [(fileKey, linkURL)] }
          (st'',
           [OutMsg.text m.chatId ("File link created:\n" ++ linkURL),
            OutMsg.text m.chatId
              ("Caption saved as:\n" ++ caption ++
               "\nIf you'd like to change it before users open the link, send:\n/setcaption "
               ++ fileKey ++ " <new caption>")])

/-- `(b *Bot) handleCallbackQuery`. -/
def handleCallbackQuery (cq : CallbackQ) : List OutMsg :=
  if !cq.hasMessage || cq.data = "" then []
  else
    let ack := [OutMsg.callbackAck cq.id]
    if cq.data = "guide_upload" then ack ++ [OutMsg.text cq.chatId guideUpload]
    else if cq.data = "guide_link" then ack ++ [OutMsg.text cq.chatId guideGetLink]
    else ack

/-- `(b *Bot) handleCommand`: the fixed command table; unrecognized command
tokens fall through with no handler body run. -/
def handleCommand (st : BotState) (o : ExtOracle) (m : Message) :
    BotState × List OutMsg × List Sched :=
  match m.command with
  | some "start" => handleStart st o m
  | some "help" => match handleHelp st m with | (st', outs) => (st', outs, [])
  | some "login" => match handleLogin st m with | (st', outs) => (st', outs, [])
  | some "logout" => match handleLogout st m with | (st', outs) => (st', outs, [])
  | some "setcaption" =>
    match handleSetCaption st o m with | (st', outs) => (st', outs, [])
  | some "settag" =>
    match handleConfigUpdate st o m settagUpdater with | (st', outs) => (st', outs, [])
  | _ => (st, [], [])

/-! ## The dispatcher (`Run` loop body) -/

/-- One inbound update: an optional callback query and an optional message. -/
structure Event where
  callback : Option CallbackQ
  message : Option Message
deriving DecidableEq

inductive Dispatch where
  | callbackQuery
  | command
  | media
  | drop
deriving DecidableEq

/-- The classification the `Run` loop body performs, in its textual order:
callback query first, then absent message, then command, then media
presence, else drop. -/
def classifyUpdate (ev : Event) : Dispatch :=
  match ev.callback with
  | some _ => Dispatch.callbackQuery
  | none =>
    match ev.message with
    | none => Dispatch.drop
    | some m =>
      if m.command.isSome then Dispatch.command
      else if m.document.isSome || m.video.isSome || m.photos.length > 0 then
        Dispatch.media
      else Dispatch.drop

inductive MediaKind where
  | document
  | video
  | photo
deriving DecidableEq

/-- The kind `handleMedia`'s switch selects: document, then video, then
photo, by declaration order. -/
def selectMediaKind (m : Message) : Option MediaKind :=
  match m.document with
  | some _ => some MediaKind.document
  | none =>
    match m.video with
    | some _ => some MediaKind.video
    | none =>
      match m.photos.getLast? with
      | some _ => some MediaKind.photo
      | none => none

/-- One iteration of the `Run` loop on one update. -/
def runStep (st : BotState) (o : ExtOracle) (ev : Event) :
    BotState × List OutMsg × List Sched :=
  match ev.callback with
  | some cq => (st, handleCallbackQuery cq, [])
  | none =>
    match ev.message with
    | none => (st, [], [])
    | some m =>
      if m.command.isSome then handleCommand st o m
      else if m.document.isSome || m.video.isSome || m.photos.length > 0 then
        match handleMedia st o m with | (st', outs) => (st', outs, [])
      else (st, [], [])

/-! ## Admin-session operation sequences (for the monotonicity claim) -/

inductive AdminOp where
  | set (userID : UserId) (active : Bool)
deriving DecidableEq

def applyAdminOps (admins : List UserId) : List AdminOp → List UserId
  | [] => admins
  | AdminOp.set uid a :: rest => applyAdminOps (setAdmin admins uid a) rest

/-! ## Concrete instances used to exercise the theorems -/

def cfgEx : Config :=
  { apiToken := "token", botUsername := "@bot", defaultTag := "#MyTag",
    adminPassword := "secret", deleteDelay := 30, dbHost := "postgres",
    dbPort := 5432, dbUser := "postgres", dbPassword := "postgres",
    dbName := "uploader", dbSSLMode := "disable",
    sponsoredChannels := ["@a", "@b", "@c"] }

/-- A raw configuration whose gating-group list holds a duplicate entry. -/
def cfgDup : Config :=
  { apiToken := "token", botUsername := "bot", defaultTag := "#Tag",
    adminPassword := "pw", deleteDelay := 0, dbHost := "", dbPort := 0,
    dbUser := "", dbPassword := "", dbName := "", dbSSLMode := "",
    sponsoredChannels := ["@a", "@a"] }

def stEx : BotState :=
  { config := cfgEx, admins := [5],
    files := [("k1", ⟨"fid1", "cap1", "video"⟩)], links := [] }

/-- A roster oracle under which group `a` passes, group `b` reports a
non-passing status, and every other group errors. -/
def rosterEx : StatusOracle := fun ch _ =>
  if ch = "a" then some "member" else if ch = "b" then some "left" else none

def oracleEx : ExtOracle :=
  { memberStatus := rosterEx, genKey := "K7", saveFileErr := none,
    saveLinkErr := none, updateCaptionErr := none, getFileErr := none,
    sendDocResult := some 1, sendPhotoResult := some 2,
    sendVideoResult := some 3, sendWarnResult := some 4,
    persistErr := some "disk full" }

def msgSettag : Message :=
  { fromId := some 5, chatId := 10, command := some "settag",
    commandArgs := "@newtag", document := none, video := none,
    photos := [], caption := "" }

def msgSettagNonAdmin : Message :=
  { fromId := some 9, chatId := 10, command := some "settag",
    commandArgs := "@newtag", document := none, video := none,
    photos := [], caption := "" }

def msgLogin : Message :=
  { fromId := some 9, chatId := 11, command := some "login",
    commandArgs := "secret", document := none, video := none,
    photos := [], caption := "" }

def msgNoFrom : Message :=
  { fromId := none, chatId := 12, command := some "start",
    commandArgs := "", document := none, video := none,
    photos := [], caption := "" }

def msgMediaNonAdmin : Message :=
  { fromId := some 9, chatId := 13, command := none,
    commandArgs := "", document := some "doc9", video := none,
    photos := [], caption := "x" }

def msgSetCapNonAdmin : Message :=
  { fromId := some 9, chatId := 14, command := some "setcaption",
    commandArgs := "k1 new caption", document := none, video := none,
    photos := [], caption := "" }

/-- A non-command message carrying both a document and a video. -/
def msgMediaBoth : Message :=
  { fromId := some 9, chatId := 13, command := none, commandArgs := "",
    document := some "d1", video := some "v1", photos := [], caption := "" }

def evMediaBoth : Event := { callback := none, message := some msgMediaBoth }

/-- The configuration `loadConfig` produces from `cfgDup`: defaults filled
in, channel list trimmed but with the duplicate retained. -/
def cfgLoadedDup : Config :=
  { apiToken := "token", botUsername := "bot", defaultTag := "#Tag",
    adminPassword := "pw", deleteDelay := 30, dbHost := "postgres",
    dbPort := 5432, dbUser := "postgres", dbPassword := "postgres",
    dbName := "uploader", dbSSLMode := "disable",
    sponsoredChannels := ["@a", "@a"] }

/-! ## Lemmas about the mention-replacement scan -/

/-- No mention token starts in the list: no `'@'` is immediately followed by
a word character. -/
def mentionFree : List Char → Bool
  | [] => true
  | [_] => true
  | a :: b :: rest => if a = '@' ∧ wordChar b = true then false else mentionFree (b :: rest)

/-- The head, if any, is not a word character. -/
def headNotWord : List Char → Bool
  | [] => true
  | c :: _ => !wordChar c

theorem mentionFree_tail {c : Char} {l : List Char}
    (h : mentionFree (c :: l) = true) : mentionFree l = true := by
  cases l with
  | nil => rfl
  | cons d rest =>
    by_cases hc : c = '@' ∧ wordChar d = true
    · simp [mentionFree, hc] at h
    · simpa [mentionFree, hc] using h

theorem mentionFree_pair {c d : Char} {l : List Char}
    (h : mentionFree (c :: d :: l) = true) : ¬(c = '@' ∧ wordChar d = true) := by
  intro hc
  simp [mentionFree, hc] at h

theorem mentionFree_cons_of_ne {a : Char} {l : List Char} (ha : a ≠ '@')
    (h : mentionFree l = true) : mentionFree (a :: l) = true := by
  cases l with
  | nil => rfl
  | cons b rest => simpa [mentionFree, ha] using h

theorem mentionFree_cons_at {l : List Char} (hh : headNotWord l = true)
    (h : mentionFree l = true) : mentionFree ('@' :: l) = true := by
  cases l with
  | nil => rfl
  | cons b rest =>
    simp [headNotWord] at hh
    simpa [mentionFree, hh] using h

theorem mentionFree_of_noAt {l : List Char} (h : '@' ∉ l) : mentionFree l = true := by
  induction l with
  | nil => rfl
  | cons a t ih =>
    simp only [List.mem_cons, not_or] at h
    exact mentionFree_cons_of_ne (fun he => h.1 he.symm) (ih h.2)

theorem mentionFree_append_of_noAt {l₁ l₂ : List Char} (h : '@' ∉ l₁)
    (h₂ : mentionFree l₂ = true) : mentionFree (l₁ ++ l₂) = true := by
  induction l₁ with
  | nil => simpa using h₂
  | cons a t ih =>
    simp only [List.mem_cons, not_or] at h
    exact mentionFree_cons_of_ne (fun he => h.1 he.symm) (ih h.2)

theorem headNotWord_append {l₁ l₂ : List Char} (h₁ : headNotWord l₁ = true)
    (h₂ : headNotWord l₂ = true) : headNotWord (l₁ ++ l₂) = true := by
  cases l₁ with
  | nil => simpa using h₂
  | cons a t => simpa [headNotWord] using h₁

/-- On mention-free input the replacement scan is the identity (and from the
pending-marker state it just re-emits the pending `'@'`). -/
theorem rmAux_id (tag : List Char) :
    ∀ l, mentionFree l = true →
      rmAux tag MState.normal l = l ∧
      (headNotWord l = true → rmAux tag MState.afterAt l = '@' :: l) := by
  intro l
  induction l with
  | nil => intro _; exact ⟨rfl, fun _ => rfl⟩
  | cons c rest ih =>
    intro h
    have htail := mentionFree_tail h
    have ihr := ih htail
    constructor
    · by_cases hc : c = '@'
      · subst hc
        have hhw : headNotWord rest = true := by
          cases rest with
          | nil => rfl
          | cons d u =>
            have := mentionFree_pair h
            simp [headNotWord]
            by_contra hw
            exact this ⟨rfl, by simpa using hw⟩
        simp [rmAux, ihr.2 hhw]
      · simp [rmAux, hc, ihr.1]
    · intro hh
      have hcw : wordChar c = false := by simpa [headNotWord] using hh
      by_cases hc : c = '@'
      · subst hc
        have hhw : headNotWord rest = true := by
          cases rest with
          | nil => rfl
          | cons d u =>
            have := mentionFree_pair h
            simp [headNotWord]
            by_contra hw
            exact this ⟨rfl, by simpa using hw⟩
        simp [rmAux, hcw, ihr.2 hhw]
      · simp [rmAux, hcw, hc, ihr.1]

/-- A template without `'$'` expands to itself: the scanner stays in the
`normal` state and copies every character. -/
theorem expandAux_no_dollar (matched : List Char) :
    ∀ l, '$' ∉ l → expandAux matched TState.normal l = l := by
  intro l
  induction l with
  | nil => intro _; rfl
  | cons c rest ih =>
    intro h
    simp only [List.mem_cons, not_or] at h
    have hc : ¬(c = '$') := fun he => h.1 he.symm
    simp [expandAux, hc, ih h.2]

/-- For a `'$'`-free tag the replacement inserted for every match is the tag
itself, whatever was matched. -/
theorem expandRepl_no_dollar {tag : List Char} (hD : '$' ∉ tag)
    (matched : List Char) : expandRepl tag matched = tag :=
  expandAux_no_dollar matched tag hD

/-- If the tag contains no `'$'` and no `'@'` and does not start with a word
character, then the output of the replacement scan is mention-free from
every state, and from the `afterAt`/`inRun` states it starts with a non-word
character. -/
theorem rmAux_mentionFree (tag : List Char) (hAt : '@' ∉ tag)
    (hHead : headNotWord tag = true) (hD : '$' ∉ tag) :
    ∀ l, mentionFree (rmAux tag MState.normal l) = true ∧
      (mentionFree (rmAux tag MState.afterAt l) = true ∧
        headNotWord (rmAux tag MState.afterAt l) = true) ∧
      (∀ acc, mentionFree (rmAux tag (MState.inRun acc) l) = true ∧
        headNotWord (rmAux tag (MState.inRun acc) l) = true) := by
  have hmf : mentionFree tag = true := mentionFree_of_noAt hAt
  intro l
  induction l with
  | nil =>
    refine ⟨rfl, ⟨rfl, rfl⟩, fun acc => ?_⟩
    simp only [rmAux, expandRepl_no_dollar hD]
    exact ⟨hmf, hHead⟩
  | cons c rest ih =>
    obtain ⟨ihN, ⟨ihA, ihAh⟩, ihI⟩ := ih
    have hw : wordChar '@' = false := by decide
    refine ⟨?_, ⟨?_, ?_⟩, fun acc => ⟨?_, ?_⟩⟩
    · by_cases hc : c = '@'
      · subst hc; simpa [rmAux] using ihA
      · simpa [rmAux, hc] using mentionFree_cons_of_ne hc ihN
    · by_cases hcw : wordChar c = true
      · simpa [rmAux, hcw] using (ihI [c]).1
      · by_cases hc : c = '@'
        · subst hc
          simp [rmAux, hcw]
          exact mentionFree_cons_at ihAh ihA
        · simp [rmAux, hcw, hc]
          refine mentionFree_cons_at ?_ (mentionFree_cons_of_ne hc ihN)
          simpa [headNotWord] using hcw
    · by_cases hcw : wordChar c = true
      · simpa [rmAux, hcw] using (ihI [c]).2
      · by_cases hc : c = '@'
        · subst hc; simp [rmAux, hcw, headNotWord, hw]
        · simp [rmAux, hcw, hc, headNotWord, hw]
    · by_cases hcw : wordChar c = true
      · simpa [rmAux, hcw] using (ihI (c :: acc)).1
      · by_cases hc : c = '@'
        · subst hc
          simp only [rmAux, hcw, Bool.false_eq_true, if_false, if_pos rfl,
            expandRepl_no_dollar hD]
          exact mentionFree_append_of_noAt hAt ihA
        · simp only [rmAux, hcw, Bool.false_eq_true, if_false, if_neg hc,
            expandRepl_no_dollar hD]
          exact mentionFree_append_of_noAt hAt (mentionFree_cons_of_ne hc ihN)
    · by_cases hcw : wordChar c = true
      · simpa [rmAux, hcw] using (ihI (c :: acc)).2
      · by_cases hc : c = '@'
        · subst hc
          simp only [rmAux, hcw, Bool.false_eq_true, if_false, if_pos rfl,
            expandRepl_no_dollar hD]
          exact headNotWord_append hHead ihAh
        · simp only [rmAux, hcw, Bool.false_eq_true, if_false, if_neg hc,
            expandRepl_no_dollar hD]
          refine headNotWord_append hHead ?_
          simpa [headNotWord] using hcw

/-- Inside a matched run, word characters are accumulated. -/
theorem rmAux_inRun_skip (tag : List Char) :
    ∀ w acc l, (∀ ch ∈ w, wordChar ch = true) →
      rmAux tag (MState.inRun acc) (w ++ l) =
        rmAux tag (MState.inRun (w.reverse ++ acc)) l := by
  intro w
  induction w with
  | nil => intro acc l _; rfl
  | cons a t ih =>
    intro acc l hw
    have ha : wordChar a = true := hw a (List.mem_cons_self a t)
    simp only [List.cons_append, rmAux, ha, if_pos rfl, List.reverse_cons,
      List.append_assoc, List.singleton_append]
    exact ih (a :: acc) l (fun ch hc => hw ch (List.mem_cons_of_mem a hc))

/-- When the run ends (next character is not a word character, or the input
is exhausted), the accumulated match `'@' :: acc.reverse` is replaced by its
template expansion and the scan continues in the `normal` state. -/
theorem rmAux_inRun_end (tag : List Char) (acc l : List Char)
    (h : headNotWord l = true) :
    rmAux tag (MState.inRun acc) l =
      expandRepl tag ('@' :: acc.reverse) ++ rmAux tag MState.normal l := by
  cases l with
  | nil => simp [rmAux]
  | cons c rest =>
    have hcw : wordChar c = false := by simpa [headNotWord] using h
    by_cases hc : c = '@'
    · subst hc; simp [rmAux, hcw]
    · simp [rmAux, hcw, hc]

/-- The replacement of one explicit maximal mention token: a `'@'`-free
prefix, then `'@'`, then a nonempty word run `w`, then a rest starting with
a non-word character (or empty).  The scan emits the prefix verbatim,
replaces the token with the tag expanded against the match `'@' :: w`, and
continues on the rest. -/
theorem rmAux_split (tag : List Char) :
    ∀ l₁ w l₂, '@' ∉ l₁ → w ≠ [] → (∀ ch ∈ w, wordChar ch = true) →
      headNotWord l₂ = true →
      rmAux tag MState.normal (l₁ ++ '@' :: (w ++ l₂)) =
        l₁ ++ expandRepl tag ('@' :: w) ++ rmAux tag MState.normal l₂ := by
  intro l₁
  induction l₁ with
  | nil =>
    intro w l₂ _ hw hword hl₂
    cases w with
    | nil => exact absurd rfl hw
    | cons a t =>
      have ha : wordChar a = true := hword a (List.mem_cons_self a t)
      have step : rmAux tag MState.normal ([] ++ '@' :: ((a :: t) ++ l₂)) =
          rmAux tag (MState.inRun [a]) (t ++ l₂) := by
        simp [rmAux, ha]
      rw [step, rmAux_inRun_skip tag t [a] l₂
          (fun ch hc => hword ch (List.mem_cons_of_mem a hc)),
        rmAux_inRun_end tag _ l₂ hl₂]
      simp
  | cons a t ih =>
    intro w l₂ hAt hw hword hl₂
    simp only [List.mem_cons, not_or] at hAt
    have ha : a ≠ '@' := fun he => hAt.1 he.symm
    simp only [List.cons_append, List.append_assoc]
    simp [rmAux, ha]
    rw [ih w l₂ hAt.2 hw hword hl₂, List.append_assoc]

/-! ## Lemmas about the substring test -/

theorem isPrefixOfL_self : ∀ l : List Char, isPrefixOfL l l = true := by
  intro l
  induction l with
  | nil => rfl
  | cons a t ih => simp [isPrefixOfL, ih]

theorem listContains_self (l : List Char) : listContains l l = true := by
  cases l with
  | nil => rfl
  | cons a t => simp [listContains, isPrefixOfL_self]

theorem listContains_nil_iff (needle : List Char) :
    listContains [] needle = true ↔ needle = [] := by
  cases needle with
  | nil => simp [listContains, isPrefixOfL]
  | cons a t => simp [listContains, isPrefixOfL]

/-! ## `processCaption`-level lemmas -/

theorem string_mk_data (s : String) : String.mk s.data = s := by
  obtain ⟨l⟩ := s
  rfl

theorem string_mk_eq_empty_iff (l : List Char) : String.mk l = "" ↔ l = [] := by
  constructor
  · intro h
    have := congrArg String.data h
    simpa using this
  · intro h
    subst h
    rfl

theorem rmList_id {tag : String} {l : List Char} (h : mentionFree l = true) :
    rmList tag l = l :=
  (rmAux_id tag.data l h).1

theorem rmList_mentionFree {tag : String} (hAt : '@' ∉ tag.data)
    (hHead : headNotWord tag.data = true) (hD : '$' ∉ tag.data)
    (l : List Char) :
    mentionFree (rmList tag l) = true :=
  (rmAux_mentionFree tag.data hAt hHead hD l).1

/-- Normalizing the tag itself returns the tag, for tags without `'@'`. -/
theorem processCaption_tag_fixed {tag : String} (hAt : '@' ∉ tag.data) :
    processCaption tag tag = tag := by
  by_cases htag : tag = ""
  · subst htag; rfl
  · have hmf : mentionFree tag.data = true := mentionFree_of_noAt hAt
    have hid : rmList tag tag.data = tag.data := rmList_id hmf
    have hcont : containsSub (String.mk (rmList tag tag.data)) tag = true := by
      show listContains (rmList tag tag.data) tag.data = true
      rw [hid]
      exact listContains_self tag.data
    simp [processCaption, htag, hcont, hid, string_mk_data]

/-- If the replaced text does not contain the tag, the result is the tag
alone (this also covers the empty-caption path, where the result is the tag
directly). -/
theorem processCaption_fallback {tag c : String}
    (h : containsSub (String.mk (rmList tag c.data)) tag = false) :
    processCaption tag c = tag := by
  by_cases hc : c = ""
  · simp [processCaption, hc]
  · simp [processCaption, hc, h]

/-- Idempotence of caption normalization, for default tags that contain no
mention marker `'@'` and do not start with a word character. -/
theorem processCaption_idem {tag : String} (c : String) (hAt : '@' ∉ tag.data)
    (hHead : headNotWord tag.data = true) (hD : '$' ∉ tag.data) :
    processCaption tag (processCaption tag c) = processCaption tag c := by
  by_cases hc : c = ""
  · subst hc
    show processCaption tag tag = tag
    exact processCaption_tag_fixed hAt
  · by_cases hcont : containsSub (String.mk (rmList tag c.data)) tag = true
    · have hpc : processCaption tag c = String.mk (rmList tag c.data) := by
        simp [processCaption, hc, hcont]
      rw [hpc]
      by_cases hnil : rmList tag c.data = []
      · have hempty : String.mk (rmList tag c.data) = "" := by
          rw [hnil]
        have htag : tag = "" := by
          have : listContains ([] : List Char) tag.data = true := by
            have := hcont
            rw [hnil] at this
            exact this
          have := (listContains_nil_iff tag.data).mp this
          have h2 := congrArg String.mk this
          rwa [string_mk_data] at h2
        rw [hempty, htag]
        rfl
      · have hne : String.mk (rmList tag c.data) ≠ "" := by
          intro h
          exact hnil ((string_mk_eq_empty_iff _).mp h)
        have hmf : mentionFree (rmList tag c.data) = true :=
          rmList_mentionFree hAt hHead hD c.data
        have hid : rmList tag (String.mk (rmList tag c.data)).data =
            rmList tag c.data := by
          show rmList tag (rmList tag c.data) = rmList tag c.data
          exact rmList_id hmf
        simp only [processCaption, hne, if_neg hne, hid, hcont]
        simp [hcont]
    · have h' : containsSub (String.mk (rmList tag c.data)) tag = false := by
        simpa using hcont
      rw [processCaption_fallback h']
      exact processCaption_tag_fixed hAt

/-! ## Membership-gate lemmas -/

theorem isMember_eq_all (oracle : StatusOracle) (uid : UserId) :
    ∀ channels, isMember oracle channels uid =
      channels.all (fun c => userHasStatus oracle c uid) := by
  intro channels
  induction channels with
  | nil => rfl
  | cons c rest ih => simp [isMember, List.all_cons, ih]

theorem isMember_stops (oracle : StatusOracle) (uid : UserId) :
    ∀ pre c post, (∀ c' ∈ pre, userHasStatus oracle c' uid = true) →
      userHasStatus oracle c uid = false →
      isMember oracle (pre ++ c :: post) uid = false ∧
      isMemberQueries oracle (pre ++ c :: post) uid =
        isMemberQueries oracle (pre ++ [c]) uid := by
  intro pre
  induction pre with
  | nil =>
    intro c post _ hc
    constructor
    · simp [isMember, hc]
    · simp [isMemberQueries, hc]
  | cons a t ih =>
    intro c post hpre hc
    have ha : userHasStatus oracle a uid = true := hpre a (List.mem_cons_self a t)
    have ht : ∀ c' ∈ t, userHasStatus oracle c' uid = true :=
      fun c' hc' => hpre c' (List.mem_cons_of_mem a hc')
    obtain ⟨ih1, ih2⟩ := ih c post ht hc
    constructor
    · simp [isMember, ha, ih1]
    · simp [isMemberQueries, ha, ih1, ih2]

/-! ## Admin-session lemmas -/

theorem isAdmin_iff_mem (admins : List UserId) (uid : UserId) :
    isAdmin admins uid = true ↔ uid ∈ admins := by
  simp [isAdmin, List.elem_iff]

theorem isAdmin_setAdmin_true_self (admins : List UserId) (uid : UserId) :
    isAdmin (setAdmin admins uid true) uid = true := by
  by_cases hmem : uid ∈ admins
  · simp [setAdmin, isAdmin_iff_mem, hmem]
  · simp [setAdmin, isAdmin_iff_mem, hmem]

theorem isAdmin_setAdmin_preserved (admins : List UserId) (uid other : UserId)
    (a : Bool) (h : isAdmin admins uid = true)
    (hne : ¬(other = uid ∧ a = false)) :
    isAdmin (setAdmin admins other a) uid = true := by
  have hmem : uid ∈ admins := (isAdmin_iff_mem admins uid).mp h
  cases a with
  | true =>
    by_cases hc : other ∈ admins
    · simp [setAdmin, hc, isAdmin_iff_mem, hmem]
    · simp [setAdmin, hc, isAdmin_iff_mem, hmem]
  | false =>
    have hne' : other ≠ uid := fun he => hne ⟨he, rfl⟩
    simp [setAdmin, isAdmin_iff_mem, List.mem_filter, hmem]
    exact fun he => hne' he.symm

theorem adminOps_monotonic :
    ∀ ops admins uid, isAdmin admins uid = true →
      (∀ op ∈ ops, op ≠ AdminOp.set uid false) →
      isAdmin (applyAdminOps admins ops) uid = true := by
  intro ops
  induction ops with
  | nil => intro admins uid h _; exact h
  | cons op rest ih =>
    intro admins uid h hops
    obtain ⟨other, a⟩ := op
    have h1 : AdminOp.set other a ≠ AdminOp.set uid false :=
      hops _ (List.mem_cons_self _ _)
    have hne : ¬(other = uid ∧ a = false) := by
      intro ⟨he, ha⟩
      exact h1 (by rw [he, ha])
    exact ih _ uid (isAdmin_setAdmin_preserved admins uid other a h hne)
      (fun op' hop' => hops op' (List.mem_cons_of_mem _ hop'))

/-! ## Claim theorems -/

/-- **C1**: `isMember` returns true iff the roster query for every group in
the configured list (in list order) reports a passing status (member,
administrator or creator); the empty list yields true unconditionally; any
query error or non-passing status makes the result false and the remaining
groups are not queried. -/
theorem C1_membership_gate (oracle : StatusOracle) (uid : UserId)
    (channels : List String) :
    isMember oracle [] uid = true ∧
    (isMember oracle channels uid = true ↔
      ∀ c ∈ channels, userHasStatus oracle c uid = true) ∧
    (∀ pre c post, (∀ c' ∈ pre, userHasStatus oracle c' uid = true) →
      userHasStatus oracle c uid = false →
      isMember oracle (pre ++ c :: post) uid = false ∧
      isMemberQueries oracle (pre ++ c :: post) uid =
        isMemberQueries oracle (pre ++ [c]) uid) := by
  refine ⟨rfl, ?_, isMember_stops oracle uid⟩
  rw [isMember_eq_all]
  exact List.all_eq_true

/-- Concrete run of the gate: group `a` passes, group `b` reports status
`left`, group `c` is never queried and the gate answers false. -/
theorem C1_membership_gate_witness :
    isMember rosterEx (["@a"] ++ "@b" :: ["@c"]) 7 = false ∧
    isMemberQueries rosterEx (["@a"] ++ "@b" :: ["@c"]) 7 =
      isMemberQueries rosterEx (["@a"] ++ ["@b"]) 7 :=
  (C1_membership_gate rosterEx 7 []).2.2 ["@a"] "@b" ["@c"]
    (by decide) (by decide)

/-- **C2**: when the configuration updater signals a change and the durable
write fails, the in-memory configuration keeps the mutated value, the
persistence error is returned, and the handler reports the failure notice to
the invoking admin. -/
theorem C2_persist_failure (st : BotState) (o : ExtOracle) (m : Message)
    (uid : UserId)
    (updater : Config → List String → Config × String × Bool × Option String)
    (cfg' : Config) (resp e : String)
    (hfrom : m.fromId = some uid)
    (hadmin : isAdmin st.admins uid = true)
    (hupd : updater st.config (parseArgs m.commandArgs) = (cfg', resp, true, none))
    (hpersist : o.persistErr = some e) :
    updateConfig st.config (persistOf o)
        (fun cfg => updater cfg (parseArgs m.commandArgs)) = (cfg', resp, some e) ∧
    (handleConfigUpdate st o m updater).1.config = cfg' ∧
    OutMsg.text m.chatId "Failed to persist config" ∈
      (handleConfigUpdate st o m updater).2 := by
  have hu : updateConfig st.config (persistOf o)
      (fun cfg => updater cfg (parseArgs m.commandArgs)) = (cfg', resp, some e) := by
    simp [updateConfig, hupd, persistOf, hpersist]
  refine ⟨hu, ?_, ?_⟩
  · simp [handleConfigUpdate, hfrom, hadmin, hu]
  · simp [handleConfigUpdate, hfrom, hadmin, hu]

/-- Concrete persistence failure on a `settag` update: the new tag stays in
memory and the failure notice is among the replies. -/
theorem C2_persist_failure_witness :
    updateConfig stEx.config (persistOf oracleEx)
        (fun cfg => settagUpdater cfg (parseArgs "@newtag")) =
      ({ cfgEx with defaultTag := "@newtag" },
        "Default tag updated to @newtag", some "disk full") ∧
    (handleConfigUpdate stEx oracleEx msgSettag settagUpdater).1.config =
      { cfgEx with defaultTag := "@newtag" } ∧
    OutMsg.text 10 "Failed to persist config" ∈
      (handleConfigUpdate stEx oracleEx msgSettag settagUpdater).2 :=
  C2_persist_failure stEx oracleEx msgSettag 5 settagUpdater
    { cfgEx with defaultTag := "@newtag" } "Default tag updated to @newtag"
    "disk full" rfl (by decide) (by decide) rfl

/-- **C3** fails as stated: the replacement is not always the default tag.
`ReplaceAllString` expands `$`-references in the replacement, so with
default tag `"#T$0"` (the `$0` names the matched text) the caption
`"hi @ab #T$0"` becomes `"hi #T@ab #T$0"` — the mention `"@ab"` is replaced
by `"#T@ab"`, not by the tag — while the claim predicts
`"hi #T$0 #T$0"`. -/
theorem C3_counterexample :
    processCaption "#T$0" "hi @ab #T$0" = "hi #T@ab #T$0" ∧
    processCaption "#T$0" "hi @ab #T$0" ≠ "hi #T$0 #T$0" :=
  ⟨by decide, by decide⟩

/-- **C3** (amended): caption normalization returns the default tag on empty
input; provided the default tag contains no `'$'` template character, it
replaces every maximal mention token (`'@'` followed by one or more word
characters) with the default tag (for tags with `'$'`, the inserted text is
the tag expanded as a template against the match); if the replaced text does
not contain the default tag it returns the default tag alone; and
`"hello @spammer world"` with tag `"#MyTag"` yields
`"hello #MyTag world"`. -/
theorem C3_caption_amended (tag c : String) (l₁ w l₂ : List Char) :
    processCaption tag "" = tag ∧
    ('$' ∉ tag.data → '@' ∉ l₁ → w ≠ [] → (∀ ch ∈ w, wordChar ch = true) →
      headNotWord l₂ = true →
      rmList tag (l₁ ++ '@' :: (w ++ l₂)) = l₁ ++ tag.data ++ rmList tag l₂) ∧
    (containsSub (String.mk (rmList tag c.data)) tag = false →
      processCaption tag c = tag) ∧
    (c ≠ "" → containsSub (String.mk (rmList tag c.data)) tag = true →
      processCaption tag c = String.mk (rmList tag c.data)) ∧
    processCaption "#MyTag" "hello @spammer world" = "hello #MyTag world" := by
  refine ⟨by simp [processCaption], ?_, processCaption_fallback, ?_, by decide⟩
  · intro hD h1 h2 h3 h4
    have h := rmAux_split tag.data l₁ w l₂ h1 h2 h3 h4
    rw [expandRepl_no_dollar hD] at h
    exact h
  · intro hc hcont
    simp [processCaption, hc, hcont]

/-- Concrete mention replacement: `"hi @yo z"` with tag `"#T"` becomes
`"hi #T z"` through the decomposition conjunct. -/
theorem C3_caption_amended_witness :
    rmList "#T" ("hi ".data ++ '@' :: ("yo".data ++ " z".data)) =
      "hi ".data ++ "#T".data ++ rmList "#T" " z".data :=
  (C3_caption_amended "#T" "x" "hi ".data "yo".data " z".data).2.1
    (by decide) (by decide) (by decide) (by decide) (by decide)

/-- **C4** fails as stated: with configured default tag `"@t.x"` (accepted
by `settag`, which only requires a leading `'@'`), normalization is not
idempotent — the tag itself contains a mention token, so renormalizing
`"hello @t.x"` yields `"hello @t.x.x"`. -/
theorem C4_counterexample :
    processCaption "@t.x" (processCaption "@t.x" "hello @z") ≠
      processCaption "@t.x" "hello @z" := by decide

/-- **C4** (amended): caption normalization is idempotent for every default
tag that contains no mention marker `'@'`, no template character `'$'`, and
does not begin with a word character (so for tags like `"#MyTag"`); and
whenever the replaced text lacks the default tag, the output is exactly the
default tag.  (A tag with `'@'`, such as the `settag`-accepted `"@t.x"`, can
reintroduce a mention; a tag with `'$'`, such as `"#T$0"`, expands against
each match — either way renormalization can change the caption again.) -/
theorem C4_idempotent_amended (tag c : String) (hAt : '@' ∉ tag.data)
    (hD : '$' ∉ tag.data) (hHead : headNotWord tag.data = true) :
    processCaption tag (processCaption tag c) = processCaption tag c ∧
    (containsSub (String.mk (rmList tag c.data)) tag = false →
      processCaption tag c = tag) :=
  ⟨processCaption_idem c hAt hHead hD, processCaption_fallback⟩

/-- Concrete idempotence instance for tag `"#MyTag"`. -/
theorem C4_idempotent_amended_witness :
    processCaption "#MyTag" (processCaption "#MyTag" "hello @spammer world") =
      processCaption "#MyTag" "hello @spammer world" :=
  (C4_idempotent_amended "#MyTag" "hello @spammer world"
    (by decide) (by decide) (by decide)).1

/-- **C5** fails as stated: the loaded gating-group list is *not*
deduplicated — `cfgDup` carries a duplicate entry, loads successfully, and
the loaded list still holds the duplicate. -/
theorem C5_counterexample :
    (loadConfig cfgDup).map Config.sponsoredChannels = some ["@a", "@a"] ∧
    ¬(["@a", "@a"] : List String).Nodup := by
  exact ⟨by decide, by decide⟩

/-- **C5** (amended): configuration load succeeds iff, after stripping blank
entries from the gating-group list, the bot identity, platform credentials
and admin secret are non-empty and at least one gating group remains; in the
loaded configuration the gating-group list has blank entries stripped (after
trimming) but duplicates are retained, and identity, credentials and secret
are unchanged. -/
theorem C5_load_amended (cfg : Config) :
    ((loadConfig cfg).isSome = true ↔
      (cleanSponsors cfg.sponsoredChannels ≠ [] ∧ cfg.botUsername ≠ "" ∧
        cfg.apiToken ≠ "" ∧ cfg.adminPassword ≠ "")) ∧
    (∀ out, loadConfig cfg = some out →
      out.sponsoredChannels = cleanSponsors cfg.sponsoredChannels ∧
      out.botUsername = cfg.botUsername ∧ out.apiToken = cfg.apiToken ∧
      out.adminPassword = cfg.adminPassword) := by
  constructor
  · by_cases h : cleanSponsors cfg.sponsoredChannels = [] ∨ cfg.botUsername = "" ∨
        cfg.apiToken = "" ∨ cfg.adminPassword = ""
    · simp only [loadConfig, applyDefaults, h, if_true]
      simp only [Option.isSome_none, Bool.false_eq_true, false_iff]
      tauto
    · simp only [loadConfig, applyDefaults, h, if_false]
      simp only [Option.isSome_some, true_iff]
      tauto
  · intro out hout
    by_cases h : cleanSponsors cfg.sponsoredChannels = [] ∨ cfg.botUsername = "" ∨
        cfg.apiToken = "" ∨ cfg.adminPassword = ""
    · simp [loadConfig, applyDefaults, h] at hout
    · simp [loadConfig, applyDefaults, h] at hout
      subst hout
      simp [applyDefaults]

/-- Concrete load of `cfgDup`: succeeds, and the loaded channel list is the
cleaned (not deduplicated) input list. -/
theorem C5_load_amended_witness :
    (loadConfig cfgDup).isSome = true ∧
    cfgLoadedDup.sponsoredChannels = cleanSponsors cfgDup.sponsoredChannels :=
  ⟨(C5_load_amended cfgDup).1.mpr (by decide),
   ((C5_load_amended cfgDup).2 cfgLoadedDup (by decide)).1⟩

/-- **C6**: the dispatcher classifies each inbound event in fixed order —
callback queries first, then command messages, then media messages where the
first matching kind wins in the order document, video, photo — and every
other event is dropped: the loop body leaves the state untouched and emits
nothing. -/
theorem C6_dispatch_order (st : BotState) (o : ExtOracle) (ev : Event)
    (m : Message) :
    (∀ cq, ev.callback = some cq → classifyUpdate ev = Dispatch.callbackQuery) ∧
    (ev.callback = none → ev.message = some m → m.command.isSome = true →
      classifyUpdate ev = Dispatch.command) ∧
    (ev.callback = none → ev.message = some m → m.command = none →
      ((m.document.isSome = true →
          classifyUpdate ev = Dispatch.media ∧
          selectMediaKind m = some MediaKind.document) ∧
       (m.document = none → m.video.isSome = true →
          classifyUpdate ev = Dispatch.media ∧
          selectMediaKind m = some MediaKind.video) ∧
       (m.document = none → m.video = none → m.photos ≠ [] →
          classifyUpdate ev = Dispatch.media ∧
          selectMediaKind m = some MediaKind.photo))) ∧
    (classifyUpdate ev = Dispatch.drop ↔
      (ev.callback = none ∧
        (ev.message = none ∨
          ∃ mm, ev.message = some mm ∧ mm.command = none ∧
            mm.document = none ∧ mm.video = none ∧ mm.photos = []))) ∧
    (classifyUpdate ev = Dispatch.drop → runStep st o ev = (st, [], [])) := by
  refine ⟨?_, ?_, ?_, ?_, ?_⟩
  · intro cq hcq
    simp [classifyUpdate, hcq]
  · intro hcb hmsg hcmd
    simp [classifyUpdate, hcb, hmsg, hcmd]
  · intro hcb hmsg hcmd
    refine ⟨?_, ?_, ?_⟩
    · intro hdoc
      obtain ⟨d, hd⟩ := Option.isSome_iff_exists.mp hdoc
      simp [classifyUpdate, selectMediaKind, hcb, hmsg, hcmd, hd]
    · intro hdoc hvid
      obtain ⟨v, hv⟩ := Option.isSome_iff_exists.mp hvid
      simp [classifyUpdate, selectMediaKind, hcb, hmsg, hcmd, hdoc, hv]
    · intro hdoc hvid hphotos
      cases hp : m.photos.getLast? with
      | none => exact absurd (List.getLast?_eq_none_iff.mp hp) hphotos
      | some p =>
        have hlen : 0 < m.photos.length := List.length_pos.mpr hphotos
        simp [classifyUpdate, selectMediaKind, hcb, hmsg, hcmd, hdoc, hvid,
          hp, hlen]
  · constructor
    · intro hdrop
      cases hcb : ev.callback with
      | some cq => simp [classifyUpdate, hcb] at hdrop
      | none =>
        refine ⟨rfl, ?_⟩
        cases hmsg : ev.message with
        | none => exact Or.inl rfl
        | some mm =>
          refine Or.inr ⟨mm, rfl, ?_⟩
          simp only [classifyUpdate, hcb, hmsg] at hdrop
          cases hc : mm.command with
          | some tok => simp [hc] at hdrop
          | none =>
            simp only [hc, Option.isSome_none, Bool.false_eq_true, if_false] at hdrop
            cases hd : mm.document with
            | some d => simp [hd] at hdrop
            | none =>
              cases hv : mm.video with
              | some v => simp [hd, hv] at hdrop
              | none =>
                cases hps : mm.photos with
                | cons p ps => simp [hd, hv, hps] at hdrop
                | nil => exact ⟨rfl, rfl, rfl, rfl⟩
    · intro ⟨hcb, hrest⟩
      cases hrest with
      | inl hnone => simp [classifyUpdate, hcb, hnone]
      | inr hex =>
        obtain ⟨mm, hmm, hc, hd, hv, hps⟩ := hex
        simp [classifyUpdate, hcb, hmm, hc, hd, hv, hps]
  · intro hdrop
    cases hcb : ev.callback with
    | some cq => simp [classifyUpdate, hcb] at hdrop
    | none =>
      cases hmsg : ev.message with
      | none => simp [runStep, hcb, hmsg]
      | some mm =>
        simp only [classifyUpdate, hcb, hmsg] at hdrop
        cases hc : mm.command with
        | some tok => simp [hc] at hdrop
        | none =>
          simp only [hc, Option.isSome_none, Bool.false_eq_true, if_false] at hdrop
          cases hd : mm.document with
          | some d => simp [hd] at hdrop
          | none =>
            cases hv : mm.video with
            | some v => simp [hd, hv] at hdrop
            | none =>
              cases hps : mm.photos with
              | cons p ps => simp [hd, hv, hps] at hdrop
              | nil => simp [runStep, hcb, hmsg, hc, hd, hv, hps]

/-- Concrete classification: a non-command message carrying both a document
and a video classifies as media and the document kind wins. -/
theorem C6_dispatch_order_witness :
    classifyUpdate evMediaBoth = Dispatch.media ∧
    selectMediaKind msgMediaBoth = some MediaKind.document :=
  (((C6_dispatch_order stEx oracleEx evMediaBoth msgMediaBoth).2.2.1
    rfl rfl rfl).1 rfl)

/-- **C7**: a login with exactly one argument equal byte-for-byte to the
admin secret authenticates the sender; wrong arity or a mismatch sends an
error reply and leaves the session set unchanged; and authentication is
monotonic per identity — it persists across any operation sequence that does
not explicitly de-authenticate that same identity. -/
theorem C7_login_auth (st : BotState) (m : Message) (uid : UserId)
    (hfrom : m.fromId = some uid) :
    (parseArgs m.commandArgs = [st.config.adminPassword] →
      handleLogin st m =
        ({ st with admins := setAdmin st.admins uid true },
         [OutMsg.text m.chatId loginSuccessText]) ∧
      isAdmin (setAdmin st.admins uid true) uid = true) ∧
    (parseArgs m.commandArgs ≠ [st.config.adminPassword] →
      (handleLogin st m).1 = st ∧
      ((handleLogin st m).2 = [OutMsg.text m.chatId loginUsageText] ∨
       (handleLogin st m).2 = [OutMsg.text m.chatId loginInvalidText])) ∧
    (∀ ops admins uid', isAdmin admins uid' = true →
      (∀ op ∈ ops, op ≠ AdminOp.set uid' false) →
      isAdmin (applyAdminOps admins ops) uid' = true) := by
  refine ⟨?_, ?_, fun ops admins uid' h1 h2 => adminOps_monotonic ops admins uid' h1 h2⟩
  · intro hargs
    refine ⟨?_, isAdmin_setAdmin_true_self st.admins uid⟩
    simp [handleLogin, hfrom, hargs]
  · intro hargs
    cases hp : parseArgs m.commandArgs with
    | nil => simp [handleLogin, hfrom, hp]
    | cons a t =>
      cases t with
      | nil =>
        have hne : a ≠ st.config.adminPassword := by
          intro he
          exact hargs (by rw [hp, he])
        simp [handleLogin, hfrom, hp, hne]
      | cons b u => simp [handleLogin, hfrom, hp]

/-- Concrete login with the correct secret authenticates sender 9. -/
theorem C7_login_auth_witness :
    handleLogin stEx msgLogin =
      ({ stEx with admins := setAdmin stEx.admins 9 true },
       [OutMsg.text 11 loginSuccessText]) ∧
    isAdmin (setAdmin stEx.admins 9 true) 9 = true :=
  (C7_login_auth stEx msgLogin 9 rfl).1 (by decide)

/-- **C8**: admin-only actions (`setcaption`, `settag`, media upload)
attempted by a present but unauthenticated sender produce no reply of any
kind and leave the whole state — stored captions, configuration, content
records — unchanged. -/
theorem C8_nonadmin_silent (st : BotState) (o : ExtOracle)
    (m₁ m₂ m₃ : Message) (uid : UserId)
    (h1 : m₁.fromId = some uid) (h2 : m₂.fromId = some uid)
    (h3 : m₃.fromId = some uid) (hadmin : isAdmin st.admins uid = false) :
    handleSetCaption st o m₁ = (st, []) ∧
    handleConfigUpdate st o m₂ settagUpdater = (st, []) ∧
    handleMedia st o m₃ = (st, []) := by
  refine ⟨?_, ?_, ?_⟩
  · simp [handleSetCaption, h1, hadmin]
  · simp [handleConfigUpdate, h2, hadmin]
  · simp [handleMedia, h3, hadmin]

/-- Concrete silent drops for unauthenticated sender 9. -/
theorem C8_nonadmin_silent_witness :
    handleSetCaption stEx oracleEx msgSetCapNonAdmin = (stEx, []) ∧
    handleConfigUpdate stEx oracleEx msgSettagNonAdmin settagUpdater = (stEx, []) ∧
    handleMedia stEx oracleEx msgMediaNonAdmin = (stEx, []) :=
  C8_nonadmin_silent stEx oracleEx msgSetCapNonAdmin msgSettagNonAdmin
    msgMediaNonAdmin 9 rfl rfl rfl (by decide)

/-- **C9**: a delivered video is sent with its caption, followed
unconditionally by the separate warning message; exactly the two resulting
message identifiers are handed together to the scheduler with the configured
delete delay, and when the timer fires one deletion request is issued for
each of the two identifiers. -/
theorem C9_video_ephemeral (cfg : Config) (o : ExtOracle) (chat : ChatId)
    (record : FileRecord) (v w : Nat)
    (htype : record.fileType = "video")
    (hv : o.sendVideoResult = some v) (hw : o.sendWarnResult = some w) :
    sendFileByType cfg o chat record =
      ([OutMsg.video chat record.fileID record.caption,
        OutMsg.text chat warningText],
       [⟨chat, [v, w], cfg.deleteDelay⟩], none) ∧
    fireSched ⟨chat, [v, w], cfg.deleteDelay⟩ = [(chat, v), (chat, w)] ∧
    (v ≠ w →
      ([(chat, v), (chat, w)].count (chat, v) = 1 ∧
       [(chat, v), (chat, w)].count (chat, w) = 1)) := by
  refine ⟨?_, rfl, ?_⟩
  · simp [sendFileByType, htype, hv, hw]
  · intro hne
    constructor
    · simp [List.count_cons, hne]
    · simp [List.count_cons]
      exact hne

/-- Concrete video delivery with delay 30: identifiers 3 (video) and 4
(warning) are scheduled together and each deleted exactly once. -/
theorem C9_video_ephemeral_witness :
    sendFileByType cfgEx oracleEx 10 ⟨"fid1", "cap1", "video"⟩ =
      ([OutMsg.video 10 "fid1" "cap1", OutMsg.text 10 warningText],
       [⟨10, [3, 4], 30⟩], none) ∧
    fireSched ⟨10, [3, 4], 30⟩ = [(10, 3), (10, 4)] ∧
    (([((10 : ChatId), (3 : Nat)), (10, 4)]).count (10, 3) = 1 ∧
     ([((10 : ChatId), (3 : Nat)), (10, 4)]).count (10, 4) = 1) := by
  have h := C9_video_ephemeral cfgEx oracleEx 10 ⟨"fid1", "cap1", "video"⟩
    3 4 rfl rfl rfl
  exact ⟨h.1, h.2.1, h.2.2 (by decide)⟩

/-- **C10**: on a message with no sender, every command handler and the
media handler return immediately: no reply of any kind, no armed timer, and
no mutation of the admin set, the configuration or stored content —
including `start` with no arguments, which sends no welcome message. -/
theorem C10_absent_sender (st : BotState) (o : ExtOracle) (m : Message)
    (h : m.fromId = none) :
    handleStart st o m = (st, [], []) ∧
    handleHelp st m = (st, []) ∧
    handleLogin st m = (st, []) ∧
    handleLogout st m = (st, []) ∧
    handleSetCaption st o m = (st, []) ∧
    (∀ updater, handleConfigUpdate st o m updater = (st, [])) ∧
    handleMedia st o m = (st, []) := by
  refine ⟨?_, ?_, ?_, ?_, ?_, fun updater => ?_, ?_⟩
  · simp [handleStart, h]
  · simp [handleHelp, h]
  · simp [handleLogin, h]
  · simp [handleLogout, h]
  · simp [handleSetCaption, h]
  · simp [handleConfigUpdate, h]
  · simp [handleMedia, h]

/-- Concrete senderless `start` with empty arguments: nothing is sent. -/
theorem C10_absent_sender_witness :
    handleStart stEx oracleEx msgNoFrom = (stEx, [], []) ∧
    handleMedia stEx oracleEx msgNoFrom = (stEx, []) := by
  have h := C10_absent_sender stEx oracleEx msgNoFrom rfl
  exact ⟨h.1, h.2.2.2.2.2.2⟩

end Uploader
